import Mathlib

/-!
Verification development for the BrickLink inventory-location tool.

The Python sources `bsx_handler.py` and `location_matcher.py` are embedded
shallowly:

* XML element trees (`xml.etree.ElementTree.Element`) become the inductive
  `Element` (tag, attributes, text, tail, children).  Parsing a file and
  re-serialising it are modelled at the element-tree level: the whitespace
  mutation performed by `BSXHandler._indent_xml` before writing is modelled
  explicitly by `indentXml`, and a re-parse of the serialised bytes is the
  identity on element trees.
* Python string operations that the code relies on (`str.strip`,
  `str.lower`, `str.endswith`, `int(...)`) are modelled by character-list
  functions (`pyStrip`, `strLower`, `strEndsWith`, `pyInt`) so that all
  definitions evaluate inside the kernel.
* In-place mutation of an item element held by reference
  (`BSXItem.xml_element`) is modelled by storing the index of the item in
  document order (`xml_ref`) and rewriting that node functionally
  (`update_root`).
* Python `float` values are not modelled: the `Price` field keeps its raw
  text (`price_text`), and the report's `success_rate` (a float rounded with
  `round(x, 1)`) is modelled as an exact rational rounded half-to-even at
  one decimal digit (`roundHalfEvenDiv` / `finalRate`).
-/

/-! ### Python string primitives, modelled over character lists -/

/-- Model of Python `str.lower()` (ASCII case folding, which is all the
sources use). -/
def strLower (s : String) : String := ⟨s.toList.map Char.toLower⟩

/-- Model of Python `s.endswith(t)`. -/
def strEndsWith (s t : String) : Bool :=
  decide (s.toList.drop (s.toList.length - t.toList.length) = t.toList)

/-- Model of Python `str.strip()`: drop leading and trailing whitespace. -/
def pyStrip (s : String) : String :=
  ⟨((s.toList.dropWhile Char.isWhitespace).reverse.dropWhile Char.isWhitespace).reverse⟩

/-- Characters of a decimal numeral to its value, `none` if not all digits. -/
def digitsToNat (l : List Char) : Option Nat :=
  if l = [] then none
  else if l.all Char.isDigit then
    some (l.foldl (fun a c => a * 10 + (c.toNat - 48)) 0)
  else none

/-- Model of Python `int(s)` for the (already stripped) quantity strings the
handler feeds it: an optional sign followed by decimal digits. -/
def pyInt (s : String) : Option Int :=
  match s.toList with
  | '-' :: rest => (digitsToNat rest).map (fun n => -(n : Int))
  | '+' :: rest => (digitsToNat rest).map (fun n => (n : Int))
  | l => (digitsToNat l).map (fun n => (n : Int))

/-- Whether a string consists of whitespace only (so Python's `s.strip()`
is falsy). -/
def wsOnly (s : String) : Bool := s.toList.all Char.isWhitespace

/-- Python's test `not x or not x.strip()` on an optional string field:
true for `None`, the empty string and whitespace-only strings. -/
def wsOnlyOpt (o : Option String) : Bool := wsOnly (o.getD "")

/-! ### The XML element model (`xml.etree.ElementTree.Element`) -/

/-- An XML element: tag, attributes, text (content before the first child),
tail (text after the element's closing tag) and child elements, exactly the
data `xml.etree.ElementTree` exposes and `bsx_handler.py` manipulates. -/
inductive Element where
  | mk (tag : String) (attrib : List (String × String)) (text : Option String)
       (tail : Option String) (children : List Element)
deriving Repr

instance : Inhabited Element := ⟨.mk "" [] none none []⟩

def Element.tag : Element → String
  | .mk t _ _ _ _ => t

def Element.attrib : Element → List (String × String)
  | .mk _ a _ _ _ => a

def Element.text : Element → Option String
  | .mk _ _ x _ _ => x

def Element.tail : Element → Option String
  | .mk _ _ _ l _ => l

def Element.children : Element → List Element
  | .mk _ _ _ _ cs => cs

/-- Replace the `text` of an element (Python `elem.text = v`). -/
def Element.withText : Element → Option String → Element
  | .mk t a _ l cs, x => .mk t a x l cs

/-- Replace the `tail` of an element (Python `elem.tail = v`). -/
def Element.withTail : Element → Option String → Element
  | .mk t a x _ cs, l => .mk t a x l cs

/-! ### Structural equality up to whitespace

`structEq` compares two element trees field by field; `text`/`tail` fields
are compared by `textEqv`, which identifies all whitespace-only (or absent)
values.  This is the "structurally equal, differing at most in
whitespace/indentation" relation of the specification. -/

/-- Two optional text fields are equivalent when both are whitespace-only
(or absent), or literally equal. -/
def textEqv (a b : Option String) : Bool :=
  (wsOnlyOpt a && wsOnlyOpt b) || a == b

mutual
def structEq : Element → Element → Bool
  | .mk t a x l cs, .mk t' a' x' l' cs' =>
    decide (t = t') && decide (a = a') && textEqv x x' && textEqv l l' &&
      structEqList cs cs'
def structEqList : List Element → List Element → Bool
  | [], [] => true
  | c :: cs, d :: ds => structEq c d && structEqList cs ds
  | _, _ => false
end

/-! ### The pretty-printing pass of `BSXHandler.save_bsx_file`

`_indent_xml` mutates only whitespace: it rewrites `text`/`tail` fields that
are absent, empty or whitespace-only into newline-plus-indent strings. -/

/-- The string `level * "  "`. -/
def indentStr : Nat → String
  | 0 => ""
  | n + 1 => "  " ++ indentStr n

/-- The Python local `indent = "\n" + level * "  "`. -/
def pyIndent (level : Nat) : String := "\n" ++ indentStr level

/-- After `_indent_xml` recursed into the children, the Python loop variable
holds the last child, and its tail is reset to the parent-level indent if it
is whitespace-only. -/
def setLastTail (ind : String) : List Element → List Element
  | [] => []
  | [c] => [if wsOnlyOpt c.tail then c.withTail (some ind) else c]
  | c :: cs => c :: setLastTail ind cs

mutual
/-- Model of `BSXHandler._indent_xml(elem, level)` as a pure function. -/
def indentXml (level : Nat) : Element → Element
  | .mk t a x l cs =>
    if cs.isEmpty then
      if (level != 0) && wsOnlyOpt l then .mk t a x (some (pyIndent level)) cs
      else .mk t a x l cs
    else
      .mk t a
        (if wsOnlyOpt x then some (pyIndent level ++ "  ") else x)
        (if wsOnlyOpt l then some (pyIndent level) else l)
        (setLastTail (pyIndent level) (indentList (level + 1) cs))
def indentList (level : Nat) : List Element → List Element
  | [] => []
  | c :: cs => indentXml level c :: indentList level cs
end

/-! ### Lemmas: indentation only changes whitespace -/

theorem toList_append (a b : String) : (a ++ b).toList = a.toList ++ b.toList := rfl

theorem wsOnly_append (a b : String) : wsOnly (a ++ b) = (wsOnly a && wsOnly b) := by
  simp [wsOnly, toList_append, List.all_append]

theorem wsOnly_indentStr : ∀ l, wsOnly (indentStr l) = true
  | 0 => rfl
  | n + 1 => by rw [indentStr, wsOnly_append, wsOnly_indentStr n]; rfl

theorem wsOnly_pyIndent (l : Nat) : wsOnly (pyIndent l) = true := by
  rw [pyIndent, wsOnly_append, wsOnly_indentStr l]; rfl

theorem textEqv_refl (o : Option String) : textEqv o o = true := by
  simp [textEqv]

/-- Replacing a whitespace-only optional text by a whitespace-only string
preserves `textEqv` with anything it was equivalent to. -/
theorem textEqv_ws_replace (a b : Option String) (s : String)
    (hws : wsOnlyOpt a = true) (hs : wsOnly s = true)
    (h : textEqv a b = true) : textEqv (some s) b = true := by
  have hsome : wsOnlyOpt (some s) = true := by simpa [wsOnlyOpt] using hs
  have hb : wsOnlyOpt b = true := by
    rcases Bool.or_eq_true_iff.mp h with h' | h'
    · exact (Bool.and_eq_true_iff.mp h').2
    · have hab : a = b := by simpa using h'
      exact hab ▸ hws
  simp [textEqv, hsome, hb]

theorem structEq_mk_iff (t : String) (a : List (String × String))
    (x l : Option String) (cs : List Element) (t' : String)
    (a' : List (String × String)) (x' l' : Option String) (cs' : List Element) :
    structEq (.mk t a x l cs) (.mk t' a' x' l' cs') = true ↔
      t = t' ∧ a = a' ∧ textEqv x x' = true ∧ textEqv l l' = true ∧
        structEqList cs cs' = true := by
  rw [structEq]
  simp [Bool.and_eq_true, decide_eq_true_eq, and_assoc]

theorem structEqList_cons_iff (c d : Element) (cs ds : List Element) :
    structEqList (c :: cs) (d :: ds) = true ↔
      structEq c d = true ∧ structEqList cs ds = true := by
  rw [structEqList]
  exact Bool.and_eq_true_iff

theorem structEqList_setLastTail (ind : String) (hind : wsOnly ind = true) :
    ∀ (l' cs : List Element), structEqList l' cs = true →
      structEqList (setLastTail ind l') cs = true := by
  intro l'
  induction l' with
  | nil => intro cs h; cases cs with
    | nil => simpa [setLastTail] using h
    | cons d ds => simp [structEqList] at h
  | cons c rest ih =>
    intro cs h
    cases cs with
    | nil => simp [structEqList] at h
    | cons d ds =>
      rcases (structEqList_cons_iff c d rest ds).mp h with ⟨hcd, hrest⟩
      cases rest with
      | nil =>
        cases ds with
        | nil =>
          by_cases hws : wsOnlyOpt c.tail = true
          · cases c with
            | mk t a x l cc =>
              cases d with
              | mk t' a' x' l' cc' =>
                obtain ⟨h1, h2, h3, h4, h5⟩ :=
                  (structEq_mk_iff t a x l cc t' a' x' l' cc').mp hcd
                simp only [Element.tail] at hws
                show structEqList
                  [if wsOnlyOpt (Element.mk t a x l cc).tail = true
                     then (Element.mk t a x l cc).withTail (some ind)
                     else (Element.mk t a x l cc)] [.mk t' a' x' l' cc'] = true
                simp only [Element.tail]
                rw [if_pos hws, Element.withTail]
                refine (structEqList_cons_iff _ _ _ _).mpr ⟨?_, rfl⟩
                exact (structEq_mk_iff t a x (some ind) cc t' a' x' l' cc').mpr
                  ⟨h1, h2, h3, textEqv_ws_replace l l' ind hws hind h4, h5⟩
          · show structEqList
              [if wsOnlyOpt c.tail = true then c.withTail (some ind) else c] [d] = true
            rw [if_neg hws]
            exact h
        | cons e es => simp [structEqList] at hrest
      | cons c2 rest2 =>
        show structEqList (c :: setLastTail ind (c2 :: rest2)) (d :: ds) = true
        exact (structEqList_cons_iff _ _ _ _).mpr ⟨hcd, ih ds hrest⟩

mutual
theorem structEq_indentXml : ∀ (e : Element) (level : Nat),
    structEq (indentXml level e) e = true
  | .mk t a x l cs, level => by
    rw [indentXml]
    by_cases hcs : cs.isEmpty
    · have hnil : cs = [] := by
        cases cs with
        | nil => rfl
        | cons c cs' => simp at hcs
      subst hnil
      rw [if_pos hcs]
      by_cases hc : ((level != 0) && wsOnlyOpt l) = true
      · rw [if_pos hc]
        have hws : wsOnlyOpt l = true := (Bool.and_eq_true_iff.mp hc).2
        exact (structEq_mk_iff t a x (some (pyIndent level)) [] t a x l []).mpr
          ⟨rfl, rfl, textEqv_refl x,
           textEqv_ws_replace l l (pyIndent level) hws (wsOnly_pyIndent level)
             (textEqv_refl l), rfl⟩
      · rw [if_neg hc]
        exact (structEq_mk_iff t a x l [] t a x l []).mpr
          ⟨rfl, rfl, textEqv_refl x, textEqv_refl l, rfl⟩
    · rw [if_neg hcs]
      refine (structEq_mk_iff t a _ _ _ t a x l cs).mpr ⟨rfl, rfl, ?_, ?_, ?_⟩
      · by_cases hx : wsOnlyOpt x = true
        · rw [if_pos hx]
          refine textEqv_ws_replace x x (pyIndent level ++ "  ") hx ?_ (textEqv_refl x)
          rw [wsOnly_append, wsOnly_pyIndent]; rfl
        · rw [if_neg hx]; exact textEqv_refl x
      · by_cases hl : wsOnlyOpt l = true
        · rw [if_pos hl]
          exact textEqv_ws_replace l l (pyIndent level) hl (wsOnly_pyIndent level)
            (textEqv_refl l)
        · rw [if_neg hl]; exact textEqv_refl l
      · exact structEqList_setLastTail (pyIndent level) (wsOnly_pyIndent level)
          (indentList (level + 1) cs) cs (structEqList_indentList cs (level + 1))
theorem structEqList_indentList : ∀ (cs : List Element) (level : Nat),
    structEqList (indentList level cs) cs = true
  | [], _ => rfl
  | c :: cs, level => by
    rw [indentList]
    exact (structEqList_cons_iff _ _ _ _).mpr
      ⟨structEq_indentXml c level, structEqList_indentList cs level⟩
end

/-! ### Item descendants (`root.findall('.//Item')`) and indexed update

`BSXHandler` keeps, inside each parsed `BSXItem`, a reference to the item's
XML element and mutates it in place.  Functionally we identify an item by
its index in the document-order list of `Item` descendants and rewrite that
node (`updE`/`updL`). -/

mutual
/-- All descendants-or-self of an element whose tag is `Item`, in document
order. -/
def itemsE : Element → List Element
  | e@(.mk t _ _ _ cs) => (if t = "Item" then [e] else []) ++ itemsL cs
/-- All `Item` descendants of a list of elements, in document order. -/
def itemsL : List Element → List Element
  | [] => []
  | c :: cs => itemsE c ++ itemsL cs
end

/-- The list returned by `self.root.findall('.//Item')` (the root element
itself is not a candidate). -/
def bsxItems (root : Element) : List Element := itemsL root.children

/-- Model of `ET.SubElement(item.xml_element, 'Remarks')` followed by
`remarks_elem.text = location`: a fresh `Remarks` child. -/
def remarksElemNew (loc : String) : Element := .mk "Remarks" [] (some loc) none []

/-- Set the text of the first `Remarks` child, as
`item.xml_element.find('Remarks')` plus `remarks_elem.text = location` does
when the element exists. -/
def setFirstRemarksText (loc : String) : List Element → List Element
  | [] => []
  | c :: cs =>
    if c.tag = "Remarks" then c.withText (some loc) :: cs
    else c :: setFirstRemarksText loc cs

/-- The element mutation performed by `BSXHandler.update_item_location`:
find or create the `Remarks` child and set its text. -/
def setRemarks (loc : String) : Element → Element
  | .mk t a x l cs =>
    if (cs.find? (fun c => c.tag == "Remarks")).isSome then
      .mk t a x l (setFirstRemarksText loc cs)
    else
      .mk t a x l (cs ++ [remarksElemNew loc])

mutual
/-- Rewrite the `n`-th (`0`-based, document order) `Item` descendant-or-self
of an element with `f`; also returns how many `Item` descendants-or-self the
original element has. -/
def updE (f : Element → Element) (n : Nat) : Element → Element × Nat
  | e@(.mk t a x l cs) =>
    if t = "Item" then
      if n = 0 then (f e, (itemsE e).length)
      else
        ((.mk t a x l (updL f (n - 1) cs).1 : Element), 1 + (updL f (n - 1) cs).2)
    else
      ((.mk t a x l (updL f n cs).1 : Element), (updL f n cs).2)
/-- Rewrite the `n`-th `Item` descendant found among a list of elements. -/
def updL (f : Element → Element) (n : Nat) : List Element → List Element × Nat
  | [] => ([], 0)
  | c :: rest =>
    if n < (updE f n c).2 then
      ((updE f n c).1 :: rest, (updE f n c).2 + (itemsL rest).length)
    else
      ((updE f n c).1 :: (updL f (n - (updE f n c).2) rest).1,
       (updE f n c).2 + (updL f (n - (updE f n c).2) rest).2)
end

/-- Model of mutating the `k`-th `Item` element inside the loaded tree
through the reference stored in a `BSXItem`. -/
def update_root (k : Nat) (loc : String) : Element → Element
  | .mk t a x l cs => .mk t a x l (updL (setRemarks loc) k cs).1

/-- Whether no `Item` descendant of the root contains a nested `Item`
(true of every BrickStore document: items sit side by side inside
`Inventory`). -/
def flatItems (root : Element) : Bool :=
  (bsxItems root).all (fun e => (itemsL e.children).isEmpty)

/-- Children of an element other than `Remarks` elements. -/
def nonRemarksChildren (e : Element) : List Element :=
  e.children.filter (fun c => !(c.tag == "Remarks"))

/-- The text of the first `Remarks` child, if any. -/
def remarksText (e : Element) : Option String :=
  (e.children.find? (fun c => c.tag == "Remarks")).bind Element.text

/-! ### Lemmas about item descendants and the indexed update -/

theorem itemsE_eq (e : Element) :
    itemsE e = (if e.tag = "Item" then [e] else []) ++ itemsL e.children := by
  cases e with
  | mk t a x l cs => rw [itemsE]; rfl

theorem itemsL_append : ∀ (a b : List Element),
    itemsL (a ++ b) = itemsL a ++ itemsL b
  | [], b => by rw [List.nil_append, itemsL]; rfl
  | c :: cs, b => by
    rw [List.cons_append, itemsL, itemsL, itemsL_append cs b, List.append_assoc]

theorem itemsE_withText (c : Element) (v : Option String)
    (htag : c.tag ≠ "Item") : itemsE (c.withText v) = itemsE c := by
  cases c with
  | mk t a x l cs =>
    simp only [Element.tag] at htag
    rw [Element.withText, itemsE, itemsE]
    simp [htag]

theorem itemsL_setFirstRemarksText (loc : String) :
    ∀ cs : List Element, itemsL (setFirstRemarksText loc cs) = itemsL cs
  | [] => rfl
  | c :: cs => by
    rw [setFirstRemarksText]
    by_cases h : c.tag = "Remarks"
    · rw [if_pos h, itemsL, itemsL, itemsE_withText c (some loc) (by rw [h]; decide)]
    · rw [if_neg h, itemsL, itemsL, itemsL_setFirstRemarksText loc cs]

theorem setRemarks_tag (loc : String) (e : Element) :
    (setRemarks loc e).tag = e.tag := by
  cases e with
  | mk t a x l cs =>
    rw [setRemarks]
    by_cases h : (cs.find? (fun c => c.tag == "Remarks")).isSome
    · rw [if_pos h]; rfl
    · rw [if_neg h]; rfl

theorem setRemarks_attrib (loc : String) (e : Element) :
    (setRemarks loc e).attrib = e.attrib := by
  cases e with
  | mk t a x l cs =>
    rw [setRemarks]
    by_cases h : (cs.find? (fun c => c.tag == "Remarks")).isSome
    · rw [if_pos h]; rfl
    · rw [if_neg h]; rfl

theorem setRemarks_text (loc : String) (e : Element) :
    (setRemarks loc e).text = e.text := by
  cases e with
  | mk t a x l cs =>
    rw [setRemarks]
    by_cases h : (cs.find? (fun c => c.tag == "Remarks")).isSome
    · rw [if_pos h]; rfl
    · rw [if_neg h]; rfl

theorem setRemarks_tail (loc : String) (e : Element) :
    (setRemarks loc e).tail = e.tail := by
  cases e with
  | mk t a x l cs =>
    rw [setRemarks]
    by_cases h : (cs.find? (fun c => c.tag == "Remarks")).isSome
    · rw [if_pos h]; rfl
    · rw [if_neg h]; rfl

theorem itemsL_setRemarks_children (loc : String) (e : Element) :
    itemsL (setRemarks loc e).children = itemsL e.children := by
  cases e with
  | mk t a x l cs =>
    rw [setRemarks]
    by_cases h : (cs.find? (fun c => c.tag == "Remarks")).isSome
    · rw [if_pos h]
      show itemsL (setFirstRemarksText loc cs) = itemsL cs
      exact itemsL_setFirstRemarksText loc cs
    · rw [if_neg h]
      show itemsL (cs ++ [remarksElemNew loc]) = itemsL cs
      rw [itemsL_append]
      show itemsL cs ++ itemsL [remarksElemNew loc] = itemsL cs
      rw [itemsL, remarksElemNew, itemsE]
      simp [itemsL]

theorem Element.tag_withText (c : Element) (v : Option String) :
    (c.withText v).tag = c.tag := by cases c; rfl

theorem getD_append_left {α : Type} (d : α) :
    ∀ (a b : List α) (n : Nat), n < a.length → (a ++ b).getD n d = a.getD n d
  | [], _, n, h => by simp at h
  | _ :: _, _, 0, _ => rfl
  | x :: a, b, n + 1, h => by
    simp only [List.cons_append, List.getD_cons_succ]
    exact getD_append_left d a b n (by simpa using h)

theorem getD_append_right {α : Type} (d : α) :
    ∀ (a b : List α) (n : Nat), a.length ≤ n →
      (a ++ b).getD n d = b.getD (n - a.length) d
  | [], _, n, _ => by simp
  | _ :: _, _, 0, h => by simp at h
  | x :: a, b, n + 1, h => by
    simp only [List.cons_append, List.getD_cons_succ, List.length_cons]
    rw [getD_append_right d a b n (by simpa using h)]
    congr 1
    omega

theorem set_append_left {α : Type} :
    ∀ (a b : List α) (n : Nat) (v : α), n < a.length →
      (a ++ b).set n v = a.set n v ++ b
  | [], _, n, _, h => by simp at h
  | _ :: _, _, 0, _, _ => rfl
  | x :: a, b, n + 1, v, h => by
    show x :: (a ++ b).set n v = x :: (a.set n v ++ b)
    rw [set_append_left a b n v (by simpa using h)]

theorem set_append_right {α : Type} :
    ∀ (a b : List α) (n : Nat) (v : α), a.length ≤ n →
      (a ++ b).set n v = a ++ b.set (n - a.length) v
  | [], _, n, _, _ => by simp
  | _ :: _, _, 0, _, h => by simp at h
  | x :: a, b, n + 1, v, h => by
    show x :: (a ++ b).set n v = x :: (a ++ b.set (n + 1 - (x :: a).length) v)
    rw [set_append_right a b n v (by simpa using h)]
    have hidx : n - a.length = n + 1 - (x :: a).length := by
      simp only [List.length_cons]; omega
    rw [hidx]

mutual
theorem updE_id (f : Element → Element) : ∀ (c : Element) (n : Nat),
    itemsE c = [] → (updE f n c).1 = c ∧ (updE f n c).2 = 0
  | .mk t a x l cs, n, h => by
    rw [itemsE] at h
    obtain ⟨hh, hcs⟩ := List.append_eq_nil.mp h
    have htag : ¬ t = "Item" := by
      intro ht
      rw [if_pos ht] at hh
      exact absurd hh (by simp)
    have hL := updL_id f cs n hcs
    rw [updE, if_neg htag]
    exact ⟨by rw [hL.1], by rw [hL.2]⟩
theorem updL_id (f : Element → Element) : ∀ (cs : List Element) (n : Nat),
    itemsL cs = [] → (updL f n cs).1 = cs ∧ (updL f n cs).2 = 0
  | [], _, _ => ⟨rfl, rfl⟩
  | c :: rest, n, h => by
    rw [itemsL] at h
    obtain ⟨hc, hrest⟩ := List.append_eq_nil.mp h
    have hE := updE_id f c n hc
    have hlt : ¬ (n < (updE f n c).2) := by rw [hE.2]; omega
    rw [updL, if_neg hlt]
    have hR := updL_id f rest (n - (updE f n c).2) hrest
    exact ⟨by rw [hE.1, hR.1], by rw [hR.2, hE.2]⟩
end

mutual
theorem updE_spec (f : Element → Element)
    (htagf : ∀ y, (f y).tag = y.tag)
    (hchf : ∀ y, itemsL (f y).children = itemsL y.children) :
    ∀ (c : Element) (n : Nat),
      (∀ e ∈ itemsE c, itemsL e.children = []) →
      (updE f n c).2 = (itemsE c).length ∧
      itemsE (updE f n c).1 =
        (if n < (itemsE c).length
         then (itemsE c).set n (f ((itemsE c).getD n default))
         else itemsE c)
  | .mk t a x l cs, n, hflat => by
    by_cases ht : t = "Item"
    · have hself : (Element.mk t a x l cs) ∈ itemsE (.mk t a x l cs) := by
        rw [itemsE, if_pos ht]
        exact List.mem_append_left _ (List.mem_singleton.mpr rfl)
      have hcs : itemsL cs = [] := hflat _ hself
      have hitems : itemsE (.mk t a x l cs) = [Element.mk t a x l cs] := by
        rw [itemsE, if_pos ht, hcs, List.append_nil]
      by_cases hn : n = 0
      · subst hn
        rw [updE, if_pos ht, if_pos rfl]
        constructor
        · rw [hitems]
        · rw [hitems]
          rw [if_pos (by simp)]
          rw [itemsE_eq, htagf, hchf]
          show (if (Element.mk t a x l cs).tag = "Item"
                  then [f (.mk t a x l cs)] else []) ++ itemsL cs = _
          rw [Element.tag]
          rw [if_pos ht, hcs, List.append_nil]
          rfl
      · rw [updE, if_pos ht, if_neg hn]
        have hL := updL_id f cs (n - 1) hcs
        constructor
        · rw [hL.2, hitems]; rfl
        · rw [hL.1, hitems]
          rw [if_neg (by simp; omega)]
    · have hitems : itemsE (.mk t a x l cs) = itemsL cs := by
        rw [itemsE, if_neg ht, List.nil_append]
      have hflat' : ∀ e ∈ itemsL cs, itemsL e.children = [] := by
        intro e he
        exact hflat e (by rw [hitems]; exact he)
      have hL := updL_spec f htagf hchf cs n hflat'
      rw [updE, if_neg ht]
      constructor
      · rw [hL.1, hitems]
      · rw [hitems]
        show itemsE (.mk t a x l (updL f n cs).1) = _
        rw [itemsE, if_neg ht, List.nil_append]
        exact hL.2
theorem updL_spec (f : Element → Element)
    (htagf : ∀ y, (f y).tag = y.tag)
    (hchf : ∀ y, itemsL (f y).children = itemsL y.children) :
    ∀ (cs : List Element) (n : Nat),
      (∀ e ∈ itemsL cs, itemsL e.children = []) →
      (updL f n cs).2 = (itemsL cs).length ∧
      itemsL (updL f n cs).1 =
        (if n < (itemsL cs).length
         then (itemsL cs).set n (f ((itemsL cs).getD n default))
         else itemsL cs)
  | [], n, _ => by
    rw [updL, itemsL]
    exact ⟨rfl, by rw [if_neg (by simp)]⟩
  | c :: rest, n, hflat => by
    have hflatE : ∀ e ∈ itemsE c, itemsL e.children = [] := by
      intro e he
      exact hflat e (by rw [itemsL]; exact List.mem_append_left _ he)
    have hflatL : ∀ e ∈ itemsL rest, itemsL e.children = [] := by
      intro e he
      exact hflat e (by rw [itemsL]; exact List.mem_append_right _ he)
    have hE := updE_spec f htagf hchf c n hflatE
    rw [updL]
    by_cases hlt : n < (updE f n c).2
    · rw [if_pos hlt]
      have hlt' : n < (itemsE c).length := by rw [← hE.1]; exact hlt
      constructor
      · rw [hE.1, itemsL, List.length_append]
      · rw [itemsL, itemsL]
        rw [hE.2, if_pos hlt']
        rw [if_pos (by rw [List.length_append]; omega)]
        rw [set_append_left _ _ _ _ hlt', getD_append_left _ _ _ _ hlt']
    · rw [if_neg hlt]
      have hge : (itemsE c).length ≤ n := by
        rw [← hE.1]; omega
      have hR := updL_spec f htagf hchf rest (n - (itemsE c).length) hflatL
      constructor
      · rw [itemsL, List.length_append, hE.1, hR.1]
      · rw [itemsL, itemsL]
        rw [hE.2, if_neg (by omega)]
        rw [hE.1]
        rw [hR.2]
        by_cases htot : n < (itemsE c ++ itemsL rest).length
        · have htot2 : n - (itemsE c).length < (itemsL rest).length := by
            rw [List.length_append] at htot
            omega
          rw [if_pos htot2, if_pos htot]
          rw [set_append_right _ _ _ _ hge, getD_append_right _ _ _ _ hge]
        · have htot2 : ¬ (n - (itemsE c).length < (itemsL rest).length) := by
            rw [List.length_append] at htot
            omega
          rw [if_neg htot2, if_neg htot]
end

theorem bsxItems_update_root (loc : String) (root : Element) (k : Nat)
    (hflat : flatItems root = true) :
    bsxItems (update_root k loc root) =
      (if k < (bsxItems root).length
       then (bsxItems root).set k (setRemarks loc ((bsxItems root).getD k default))
       else bsxItems root) := by
  cases root with
  | mk t a x l cs =>
    have hfl : ∀ e ∈ itemsL cs, itemsL e.children = [] := by
      intro e he
      have h1 := List.all_eq_true.mp hflat e (by
        show e ∈ bsxItems (.mk t a x l cs)
        exact he)
      cases hmt : itemsL e.children with
      | nil => rfl
      | cons z zs => rw [hmt] at h1; simp at h1
    have hL := updL_spec (setRemarks loc) (setRemarks_tag loc)
      (itemsL_setRemarks_children loc) cs k hfl
    show itemsL (updL (setRemarks loc) k cs).1 = _
    exact hL.2

theorem filter_setFirstRemarksText (loc : String) :
    ∀ cs : List Element,
      (setFirstRemarksText loc cs).filter (fun c => !(c.tag == "Remarks")) =
        cs.filter (fun c => !(c.tag == "Remarks"))
  | [] => rfl
  | c :: cs => by
    rw [setFirstRemarksText]
    by_cases h : c.tag = "Remarks"
    · rw [if_pos h]
      rw [List.filter_cons, List.filter_cons]
      simp [Element.tag_withText, h]
    · rw [if_neg h]
      rw [List.filter_cons, List.filter_cons, filter_setFirstRemarksText loc cs]

theorem nonRemarksChildren_setRemarks (loc : String) (e : Element) :
    nonRemarksChildren (setRemarks loc e) = nonRemarksChildren e := by
  cases e with
  | mk t a x l cs =>
    rw [setRemarks]
    by_cases h : (cs.find? (fun c => c.tag == "Remarks")).isSome
    · rw [if_pos h]
      show (setFirstRemarksText loc cs).filter _ = cs.filter _
      exact filter_setFirstRemarksText loc cs
    · rw [if_neg h]
      show (cs ++ [remarksElemNew loc]).filter _ = cs.filter _
      rw [List.filter_append]
      simp [remarksElemNew, Element.tag]

theorem find?_append_none {α : Type} (p : α → Bool) :
    ∀ (a b : List α), a.find? p = none → (a ++ b).find? p = b.find? p
  | [], _, _ => rfl
  | x :: a, b, h => by
    by_cases hx : p x = true
    · rw [@List.find?_cons_of_pos _ p x a hx] at h
      exact absurd h (by simp)
    · have hx' : p x = false := by
        cases hv : p x with
        | true => exact absurd hv hx
        | false => rfl
      rw [@List.find?_cons_of_neg _ p x a (by simp [hx'])] at h
      rw [List.cons_append, @List.find?_cons_of_neg _ p x (a ++ b) (by simp [hx'])]
      exact find?_append_none p a b h

theorem remarksAux (loc : String) :
    ∀ cs : List Element, (cs.find? (fun c => c.tag == "Remarks")).isSome = true →
      ((setFirstRemarksText loc cs).find? (fun c => c.tag == "Remarks")).bind
          Element.text = some loc
  | [], h => by simp [List.find?] at h
  | c :: cs, h => by
    rw [setFirstRemarksText]
    by_cases hc : c.tag = "Remarks"
    · rw [if_pos hc]
      have hpos : ((c.withText (some loc)).tag == "Remarks") = true := by
        rw [Element.tag_withText]; simp [hc]
      rw [@List.find?_cons_of_pos _ (fun c => c.tag == "Remarks")
        (c.withText (some loc)) cs hpos]
      cases c; rfl
    · rw [if_neg hc]
      have hneg : (c.tag == "Remarks") = false := by simp [hc]
      rw [@List.find?_cons_of_neg _ (fun c => c.tag == "Remarks") c
        (setFirstRemarksText loc cs) (by simp [hneg])]
      rw [@List.find?_cons_of_neg _ (fun c => c.tag == "Remarks") c cs
        (by simp [hneg])] at h
      exact remarksAux loc cs h

theorem remarksText_setRemarks (loc : String) (e : Element) :
    remarksText (setRemarks loc e) = some loc := by
  cases e with
  | mk t a x l cs =>
    rw [setRemarks]
    by_cases h : (cs.find? (fun c => c.tag == "Remarks")).isSome
    · rw [if_pos h]
      show ((setFirstRemarksText loc cs).find? _).bind Element.text = some loc
      exact remarksAux loc cs h
    · rw [if_neg h]
      show ((cs ++ [remarksElemNew loc]).find? _).bind Element.text = some loc
      have hnone : cs.find? (fun c => c.tag == "Remarks") = none := by
        cases hf : cs.find? (fun c => c.tag == "Remarks") with
        | none => rfl
        | some z => rw [hf] at h; simp at h
      rw [find?_append_none _ cs _ hnone]
      rw [@List.find?_cons_of_pos _ (fun c => c.tag == "Remarks")
        (remarksElemNew loc) [] (by simp [remarksElemNew, Element.tag])]
      rfl

/-! ### The BSX handler (`bsx_handler.py`) -/

/-- Model of `BSXItem` from `bsx_handler.py`.  `price` holds the raw text of
the `Price` field: the source coerces it to an IEEE float, which no claim
depends on, so the numeric conversion is not modelled.  `xml_element`, a
reference into the loaded tree, is modelled by the item's index in
document order (`xml_ref`). -/
structure BSXItem where
  item_id : String
  item_type : String
  color_id : String
  category_id : String
  color_name : String
  category_name : String
  item_name : String
  qty : Int
  price_text : String
  condition : String
  remarks : String
  xml_ref : Option Nat
deriving DecidableEq, Repr

instance : Inhabited BSXItem :=
  ⟨⟨"", "P", "0", "0", "Unknown", "Unknown", "Unknown Item", 1, "0.00", "N", "", none⟩⟩

/-- Model of `BSXHandler._get_element_text`: text of the first child with
the given tag, stripped; the default if the child or its text is absent. -/
def get_element_text (parent : Element) (tag_name : String) (dflt : String) : String :=
  match parent.children.find? (fun c => c.tag == tag_name) with
  | some c =>
    match c.text with
    | some t => pyStrip t
    | none => dflt
  | none => dflt

/-- Model of `BSXHandler._parse_item_element`; `ref` is the index of this
item element in document order (standing in for the stored reference). -/
def parse_item_element (item_elem : Element) (ref : Nat) : BSXItem :=
  { item_id := get_element_text item_elem "ItemID" ""
    item_type := get_element_text item_elem "ItemTypeID" "P"
    color_id := get_element_text item_elem "ColorID" "0"
    category_id := get_element_text item_elem "CategoryID" "0"
    color_name := get_element_text item_elem "ColorName" "Unknown"
    category_name := get_element_text item_elem "CategoryName" "Unknown"
    item_name := get_element_text item_elem "ItemName" "Unknown Item"
    qty := (pyInt (get_element_text item_elem "Qty" "1")).getD 1
    price_text := get_element_text item_elem "Price" "0.00"
    condition := get_element_text item_elem "Condition" "N"
    remarks := get_element_text item_elem "Remarks" ""
    xml_ref := some ref }

def parseItemsAux (i : Nat) : List Element → List BSXItem
  | [] => []
  | e :: es => parse_item_element e i :: parseItemsAux (i + 1) es

/-- All items parsed from the `Item` elements of a loaded document, in
document order (the loop over `root.findall('.//Item')`). -/
def parseItems (root : Element) : List BSXItem := parseItemsAux 0 (bsxItems root)

/-- The state `BSXHandler` keeps: the parsed root, the item list and the
loaded path. -/
structure BSXState where
  root : Option Element
  items : List BSXItem
  file_path : Option String

/-- Model of `BSXHandler.load_bsx_file`.  `file_exists` stands for
`os.path.exists(file_path)` and `parsed` for the outcome of
`ET.parse(file_path)` (`none` = `ParseError`).  The guards are checked in
source order, before any content is examined. -/
def load_bsx_file (file_exists : Bool) (file_path : String)
    (parsed : Option Element) : Except String BSXState :=
  if !file_exists then .error ("File not found: " ++ file_path)
  else if !(strEndsWith (strLower file_path) ".bsx" ||
            strEndsWith (strLower file_path) ".xml") then
    .error "File must be a BSX or XML file"
  else
    match parsed with
    | none => .error "XML parsing error"
    | some root =>
      if root.tag != "BrickStoreXML" then .error "Not a valid BrickStore XML file"
      else .ok ⟨some root, parseItems root, some file_path⟩

/-- Model of `BSXHandler.get_items_without_locations`. -/
def get_items_without_locations (h : BSXState) : List BSXItem :=
  h.items.filter (fun item => pyStrip item.remarks == "")

/-- Model of `BSXHandler.get_items_with_locations`. -/
def get_items_with_locations (h : BSXState) : List BSXItem :=
  h.items.filter (fun item => !(pyStrip item.remarks == ""))

/-- Model of `BSXHandler.update_item_location`: fails only when the item has
no element reference; otherwise rewrites the referenced `Item` node's
`Remarks` child and mirrors the value into the item record. -/
def update_item_location (h : BSXState) (item : BSXItem) (location : String) :
    Bool × BSXState :=
  match item.xml_ref with
  | none => (false, h)
  | some k =>
    (true,
     { h with
       root := h.root.map (update_root k location)
       items := h.items.map (fun it =>
         if it.xml_ref == some k then { it with remarks := location } else it) })

/-- Model of `BSXHandler.save_bsx_file` at the element-tree level: fails if
nothing is loaded, otherwise the written document is the loaded tree after
the `_indent_xml` whitespace pass.  (Path selection and byte output are not
modelled; a re-parse of the written bytes yields exactly this tree.) -/
def save_bsx_tree (h : BSXState) : Except String Element :=
  match h.root with
  | none => .error "No BSX file loaded"
  | some r => .ok (indentXml 0 r)

/-! ### The location matcher (`location_matcher.py`) -/

/-- The fields of one BrickLink inventory record that
`LocationMatcher.load_inventory_locations` reads:
`item['item']['no']`, `item['item']['color_id']`, `item['remarks']`,
`item['quantity']`, `item['condition']`. -/
structure ExtRecord where
  item_no : String
  color_id : String
  remarks : String
  quantity : Int
  condition : String
deriving DecidableEq, Repr

/-- One entry of `inventory_locations[item_id]`: the dict
`{'location', 'quantity', 'condition', 'color_id'}`. -/
structure LocEntry where
  location : String
  quantity : Int
  condition : String
  color_id : String
deriving DecidableEq, Repr

/-- The state `LocationMatcher` keeps: the index (a Python dict modelled as
an insertion-ordered association list) and the `inventory_loaded` flag. -/
structure MatcherState where
  inventory_locations : List (String × List LocEntry)
  inventory_loaded : Bool
deriving DecidableEq, Repr

/-- Python `key in dict` for the association-list model. -/
def hasKey (locs : List (String × List LocEntry)) (key : String) : Bool :=
  (locs.find? (fun p => p.1 == key)).isSome

/-- One iteration of the loop in `load_inventory_locations`: skip records
with an empty id or an empty (stripped) remarks text, otherwise append an
entry to the item's list (creating the key on first sight). -/
def addInvRecord (locs : List (String × List LocEntry)) (r : ExtRecord) :
    List (String × List LocEntry) :=
  if !(r.item_no == "") && !(pyStrip r.remarks == "") then
    if hasKey locs r.item_no then
      locs.map (fun p =>
        if p.1 == r.item_no then
          (p.1, p.2 ++ [⟨pyStrip r.remarks, r.quantity, r.condition, r.color_id⟩])
        else p)
    else locs ++ [(r.item_no, [⟨pyStrip r.remarks, r.quantity, r.condition, r.color_id⟩])]
  else locs

/-- Model of `LocationMatcher.load_inventory_locations` on an
already-fetched record list (the network fetch is outside the core). -/
def load_inventory_locations (records : List ExtRecord) : MatcherState :=
  ⟨records.foldl addInvRecord [], true⟩

/-- The entry list the index associates to an item id (empty when the id is
absent). -/
def entriesFor (m : MatcherState) (item_id : String) : List LocEntry :=
  ((m.inventory_locations.find? (fun p => p.1 == item_id)).map (fun p => p.2)).getD []

/-- Model of `LocationMatcher._get_location_priority`: `R` → 0, `S` → 1,
anything else (including the empty location) → 2, on the uppercased first
character.  (Python's `location[0]` is the head of the character list; the
empty string takes the `not location` branch.) -/
def get_location_priority (location : String) : Nat :=
  match location.toList with
  | [] => 2
  | first_char :: _ =>
    if first_char.toUpper = 'R' then 0
    else if first_char.toUpper = 'S' then 1
    else 2

/-- The per-location analysis record built by
`find_best_location_for_item`: the set of colours (a Python `set`, modelled
as a duplicate-free list), the total quantity, and the per-colour
quantities. -/
structure LocAnalysis where
  location : String
  colors : List String
  total_quantity : Int
  color_quantities : List (String × Int)
deriving DecidableEq, Repr

/-- Python `set.add`. -/
def addColor (cs : List String) (c : String) : List String :=
  if cs.contains c then cs else cs ++ [c]

/-- `dict.get(c, 0) + q` style accumulation (also used for `Counter`). -/
def bumpCount (cq : List (String × Int)) (c : String) (q : Int) :
    List (String × Int) :=
  if (cq.find? (fun p => p.1 == c)).isSome then
    cq.map (fun p => if p.1 == c then (p.1, p.2 + q) else p)
  else cq ++ [(c, q)]

/-- One iteration of the analysis loop of `find_best_location_for_item`. -/
def analyzeStep (acc : List LocAnalysis) (e : LocEntry) : List LocAnalysis :=
  if (acc.find? (fun a => a.location == e.location)).isSome then
    acc.map (fun a =>
      if a.location == e.location then
        { a with
          colors := addColor a.colors e.color_id
          total_quantity := a.total_quantity + e.quantity
          color_quantities := bumpCount a.color_quantities e.color_id e.quantity }
      else a)
  else
    acc ++ [⟨e.location, [e.color_id], e.quantity, [(e.color_id, e.quantity)]⟩]

/-- The `location_analysis` dict of `find_best_location_for_item`, in
insertion order. -/
def analyzeLocations (entries : List LocEntry) : List LocAnalysis :=
  entries.foldl analyzeStep []

/-- Stable insertion used to model Python's stable `sort`. -/
def insortBy {α : Type} (le : α → α → Bool) (x : α) : List α → List α
  | [] => [x]
  | y :: ys => if le x y then x :: y :: ys else y :: insortBy le x ys

/-- Python's stable ascending sort by a key: for a total preorder `le`, the
stable sorted permutation is unique, so this models `list.sort(key=...)`. -/
def pySortBy {α : Type} (le : α → α → Bool) (l : List α) : List α :=
  l.foldr (insortBy le) []

/-- Sort key `(priority, qty)` ascending (step 3). -/
def keyLEAsc (a b : String × Int) : Bool :=
  decide (get_location_priority a.1 < get_location_priority b.1) ||
    (decide (get_location_priority a.1 = get_location_priority b.1) &&
     decide (a.2 ≤ b.2))

/-- Sort key `(priority, -qty)` ascending (steps 4 and 5). -/
def keyLEDesc (a b : String × Int) : Bool :=
  decide (get_location_priority a.1 < get_location_priority b.1) ||
    (decide (get_location_priority a.1 = get_location_priority b.1) &&
     decide (b.2 ≤ a.2))

/-- Model of `LocationMatcher.find_best_location_for_item`. -/
def find_best_location_for_item (m : MatcherState) (bsx_item : BSXItem) :
    Option String :=
  if !m.inventory_loaded then none
  else
    let item_id := bsx_item.item_id
    let item_color_id := bsx_item.color_id
    match m.inventory_locations.find? (fun p => p.1 == item_id) with
    | none => none
    | some entry =>
      let locations := entry.2
      if locations.isEmpty then none
      else
        let location_analysis := analyzeLocations locations
        -- Step 1: dedicated single-color location for the target color.
        match location_analysis.find? (fun a =>
            (a.colors.length == 1) && a.colors.contains item_color_id) with
        | some a => some a.location
        | none =>
          -- Step 2: only one location exists for this item.
          if location_analysis.length == 1 then
            (location_analysis.head?).map (fun a => a.location)
          else
            let single_color_locations :=
              (location_analysis.filter (fun a => a.colors.length == 1)).map
                (fun a => (a.location, a.total_quantity))
            let mixed_color_locations :=
              (location_analysis.filter (fun a => !(a.colors.length == 1))).map
                (fun a => (a.location, a.total_quantity))
            -- Step 3: several pure locations, sorted by (priority, qty asc).
            if 2 ≤ single_color_locations.length then
              match pySortBy keyLEAsc single_color_locations with
              | best :: _ => some best.1
              | [] => none
            -- Step 4: a pure location exists for another color; pick a mixed
            -- location by (priority, qty desc).
            else if 0 < single_color_locations.length &&
                !mixed_color_locations.isEmpty then
              match pySortBy keyLEDesc mixed_color_locations with
              | best :: _ => some best.1
              | [] => none
            else
              -- Step 5: frequency fallback over all raw entries.
              let location_counts := locations.foldl
                (fun acc e => bumpCount acc e.location e.quantity) []
              match pySortBy keyLEDesc location_counts with
              | best :: _ => some best.1
              | [] => none

/-! ### The orchestrator (`LocationMatcher.process_bsx_file`) -/

/-- One row of `results['assignment_details']`. -/
structure AssignmentInfo where
  item_id : String
  item_name : String
  color_name : String
  condition : String
  quantity : Int
  assigned_location : String
deriving DecidableEq, Repr

/-- One row of `results['items_without_matches']`. -/
structure NoMatchInfo where
  item_id : String
  item_name : String
  color_name : String
  condition : String
  quantity : Int
deriving DecidableEq, Repr

def mkAssignmentInfo (item : BSXItem) (loc : String) : AssignmentInfo :=
  ⟨item.item_id, item.item_name, item.color_name, item.condition, item.qty, loc⟩

def mkNoMatchInfo (item : BSXItem) : NoMatchInfo :=
  ⟨item.item_id, item.item_name, item.color_name, item.condition, item.qty⟩

/-- The `results` dict of `process_bsx_file`. -/
structure ProcessResults where
  total_items_processed : Nat
  locations_assigned : Nat
  no_location_found : Nat
  assignment_details : List AssignmentInfo
  items_without_matches : List NoMatchInfo
  success_rate : ℚ
deriving DecidableEq, Repr

/-- Round-half-even of `n / t` (`t > 0`), the rounding Python's `round`
performs; all arithmetic stays in `Nat` so it evaluates in the kernel. -/
def roundHalfEvenDiv (n t : Nat) : Nat :=
  if 2 * (n % t) < t then n / t
  else if t < 2 * (n % t) then n / t + 1
  else if (n / t) % 2 = 0 then n / t else n / t + 1

/-- Model of
`round((locations_assigned / total * 100) if total > 0 else 0, 1)`:
the exact rational with one decimal digit nearest (ties to even) to
`assigned/total*100`.  (The source rounds the IEEE double; the model rounds
the exact ratio.) -/
def finalRate (assigned total : Nat) : ℚ :=
  if 0 < total then ((roundHalfEvenDiv (assigned * 1000) total : Nat) : ℚ) / 10
  else 0

/-- The body of the loop in `process_bsx_file`, threading the results dict
and the handler state. -/
def process_item (m : MatcherState) (preview_only : Bool)
    (acc : ProcessResults × BSXState) (item : BSXItem) :
    ProcessResults × BSXState :=
  let results := acc.1
  let h := acc.2
  match find_best_location_for_item m item with
  | some best_location =>
    if !preview_only then
      let upd := update_item_location h item best_location
      if upd.1 then
        ({ results with
           locations_assigned := results.locations_assigned + 1
           assignment_details :=
             results.assignment_details ++ [mkAssignmentInfo item best_location] },
         upd.2)
      else (results, upd.2)
    else
      ({ results with
         locations_assigned := results.locations_assigned + 1
         assignment_details :=
           results.assignment_details ++ [mkAssignmentInfo item best_location] },
       h)
  | none =>
    ({ results with
       no_location_found := results.no_location_found + 1
       items_without_matches :=
         results.items_without_matches ++ [mkNoMatchInfo item] },
     h)

/-- Model of `LocationMatcher.process_bsx_file`: returns the typed error
when the index was never built, otherwise the report, together with the
(possibly mutated) handler state. -/
def process_bsx_file (m : MatcherState) (h : BSXState) (preview_only : Bool) :
    Except String ProcessResults × BSXState :=
  if !m.inventory_loaded then
    (.error "Inventory not loaded. Call load_inventory_locations() first.", h)
  else
    let items_without_locations := get_items_without_locations h
    let init : ProcessResults :=
      { total_items_processed := items_without_locations.length
        locations_assigned := 0
        no_location_found := 0
        assignment_details := []
        items_without_matches := []
        success_rate := 0 }
    let out := items_without_locations.foldl (process_item m preview_only) (init, h)
    (.ok { out.1 with
           success_rate :=
             finalRate out.1.locations_assigned out.1.total_items_processed },
     out.2)

/-! ### Lemmas: how `load_inventory_locations` builds the index -/

/-- Recursive form of the dict lookup, convenient for induction. -/
def lookupEntries : List (String × List LocEntry) → String → List LocEntry
  | [], _ => []
  | p :: rest, id => if p.1 == id then p.2 else lookupEntries rest id

theorem entriesFor_eq_lookup_aux (id : String) :
    ∀ locs : List (String × List LocEntry),
      ((locs.find? (fun p => p.1 == id)).map (fun p => p.2)).getD [] =
        lookupEntries locs id
  | [] => rfl
  | p :: rest => by
    cases h : (p.1 == id) with
    | true => simp [List.find?, h, lookupEntries]
    | false =>
      simp only [List.find?, h, lookupEntries, if_neg]
      simpa [h] using entriesFor_eq_lookup_aux id rest

theorem entriesFor_eq_lookup (m : MatcherState) (id : String) :
    entriesFor m id = lookupEntries m.inventory_locations id :=
  entriesFor_eq_lookup_aux id m.inventory_locations

theorem hasKey_cons (p : String × List LocEntry) (rest : List (String × List LocEntry))
    (id : String) : hasKey (p :: rest) id = ((p.1 == id) || hasKey rest id) := by
  cases h : (p.1 == id) with
  | true => simp [hasKey, List.find?, h]
  | false => simp [hasKey, List.find?, h]

theorem lookup_of_not_hasKey (id : String) :
    ∀ locs : List (String × List LocEntry), hasKey locs id = false →
      lookupEntries locs id = []
  | [], _ => rfl
  | p :: rest, h => by
    rw [hasKey_cons] at h
    obtain ⟨h1, h2⟩ := Bool.or_eq_false_iff.mp h
    rw [lookupEntries, if_neg (by simp [h1]), lookup_of_not_hasKey id rest h2]

theorem lookup_append (id : String) :
    ∀ (locs tl : List (String × List LocEntry)),
      lookupEntries (locs ++ tl) id =
        (if hasKey locs id then lookupEntries locs id else lookupEntries tl id)
  | [], tl => by
    rw [List.nil_append]
    rw [if_neg (by simp [hasKey, List.find?])]
  | p :: rest, tl => by
    rw [List.cons_append, lookupEntries, lookupEntries, hasKey_cons]
    cases h : (p.1 == id) with
    | true => simp [h]
    | false => simp only [h, Bool.false_or, if_neg (by simp : ¬ false = true)]
               rw [lookup_append id rest tl]

theorem lookup_map_other (key : String) (entry : LocEntry) (id : String)
    (hne : ¬ id = key) :
    ∀ locs : List (String × List LocEntry),
      lookupEntries
          (locs.map (fun p => if p.1 == key then (p.1, p.2 ++ [entry]) else p)) id =
        lookupEntries locs id
  | [] => rfl
  | p :: rest => by
    rw [List.map_cons]
    have hkid : ¬ key = id := fun hc => hne hc.symm
    by_cases hk : p.1 = key
    · have h2 : ¬ p.1 = id := by rw [hk]; exact hkid
      simp [lookupEntries, hk, h2, hkid]
      simpa using lookup_map_other key entry id hne rest
    · by_cases hid : p.1 = id
      · simp [lookupEntries, hk, hid, hne]
      · simp [lookupEntries, hk, hid]
        simpa using lookup_map_other key entry id hne rest

theorem lookup_map_self (key : String) (entry : LocEntry) :
    ∀ locs : List (String × List LocEntry), hasKey locs key = true →
      lookupEntries
          (locs.map (fun p => if p.1 == key then (p.1, p.2 ++ [entry]) else p)) key =
        lookupEntries locs key ++ [entry]
  | [], h => by simp [hasKey, List.find?] at h
  | p :: rest, h => by
    rw [List.map_cons]
    by_cases hk : p.1 = key
    · simp [lookupEntries, hk]
    · rw [hasKey_cons] at h
      have hrest : hasKey rest key = true := by
        rcases Bool.or_eq_true_iff.mp h with h1 | h1
        · exact absurd (by simpa using h1) hk
        · exact h1
      simp [lookupEntries, hk]
      simpa using lookup_map_self key entry rest hrest

/-- The entry appended to the index by one external record, if any. -/
def recordEntry (r : ExtRecord) (id : String) : Option LocEntry :=
  if r.item_no = id ∧ ¬ r.item_no = "" ∧ ¬ pyStrip r.remarks = "" then
    some ⟨pyStrip r.remarks, r.quantity, r.condition, r.color_id⟩
  else none

theorem lookup_addInvRecord (locs : List (String × List LocEntry)) (r : ExtRecord)
    (id : String) :
    lookupEntries (addInvRecord locs r) id =
      lookupEntries locs id ++ (recordEntry r id).toList := by
  by_cases hg : (!(r.item_no == "") && !(pyStrip r.remarks == "")) = true
  · obtain ⟨hg1, hg2⟩ := Bool.and_eq_true_iff.mp hg
    have hid : ¬ r.item_no = "" := by simpa using hg1
    have hrem : ¬ pyStrip r.remarks = "" := by simpa using hg2
    by_cases heq : r.item_no = id
    · subst heq
      have hrec : recordEntry r r.item_no =
          some ⟨pyStrip r.remarks, r.quantity, r.condition, r.color_id⟩ := by
        unfold recordEntry
        rw [if_pos (show r.item_no = r.item_no ∧ ¬ r.item_no = "" ∧
          ¬ pyStrip r.remarks = "" from ⟨rfl, hid, hrem⟩)]
      rw [hrec]
      by_cases hk : hasKey locs r.item_no = true
      · have hadd : addInvRecord locs r = locs.map (fun p =>
            if p.1 == r.item_no then
              (p.1, p.2 ++ [⟨pyStrip r.remarks, r.quantity, r.condition, r.color_id⟩])
            else p) := by
          unfold addInvRecord
          rw [if_pos hg, if_pos hk]
        rw [hadd, lookup_map_self r.item_no _ locs hk]
        rfl
      · have hadd : addInvRecord locs r = locs ++
            [(r.item_no, [⟨pyStrip r.remarks, r.quantity, r.condition, r.color_id⟩])] := by
          unfold addInvRecord
          rw [if_pos hg, if_neg hk]
        rw [hadd, lookup_append, if_neg hk,
          lookup_of_not_hasKey r.item_no locs (by simpa using hk)]
        rw [lookupEntries, if_pos (by simp)]
        rfl
    · have hrec : recordEntry r id = none := by
        unfold recordEntry
        rw [if_neg (show ¬ (r.item_no = id ∧ ¬ r.item_no = "" ∧
          ¬ pyStrip r.remarks = "") from fun hc => heq hc.1)]
      rw [hrec]
      by_cases hk : hasKey locs r.item_no = true
      · have hadd : addInvRecord locs r = locs.map (fun p =>
            if p.1 == r.item_no then
              (p.1, p.2 ++ [⟨pyStrip r.remarks, r.quantity, r.condition, r.color_id⟩])
            else p) := by
          unfold addInvRecord
          rw [if_pos hg, if_pos hk]
        rw [hadd, lookup_map_other r.item_no _ id (fun hc => heq hc.symm) locs]
        simp
      · have hadd : addInvRecord locs r = locs ++
            [(r.item_no, [⟨pyStrip r.remarks, r.quantity, r.condition, r.color_id⟩])] := by
          unfold addInvRecord
          rw [if_pos hg, if_neg hk]
        rw [hadd, lookup_append]
        by_cases hk2 : hasKey locs id = true
        · rw [if_pos hk2]; simp
        · rw [if_neg hk2,
            lookup_of_not_hasKey id locs (by simpa using hk2)]
          rw [lookupEntries, if_neg (by simp; exact fun hc => heq hc)]
          simp [lookupEntries]
  · have hadd : addInvRecord locs r = locs := by
      unfold addInvRecord
      rw [if_neg hg]
    have hrec : recordEntry r id = none := by
      unfold recordEntry
      rw [if_neg (show ¬ (r.item_no = id ∧ ¬ r.item_no = "" ∧
        ¬ pyStrip r.remarks = "") from by
          intro hc
          obtain ⟨-, hid2, hrem2⟩ := hc
          exact hg (by simp [hid2, hrem2]))]
    rw [hadd, hrec]
    simp

theorem lookup_fold_addInvRecord (id : String) :
    ∀ (records : List ExtRecord) (locs : List (String × List LocEntry)),
      lookupEntries (records.foldl addInvRecord locs) id =
        lookupEntries locs id ++
          records.filterMap (fun r => recordEntry r id)
  | [], locs => by simp
  | r :: rs, locs => by
    rw [List.foldl_cons, lookup_fold_addInvRecord id rs (addInvRecord locs r)]
    rw [lookup_addInvRecord, List.filterMap_cons]
    cases hre : recordEntry r id with
    | none => simp
    | some entry => simp

/-! ### Lemmas: the per-location analysis has pairwise-distinct locations -/

def analysisKeys (l : List LocAnalysis) : List String := l.map (fun a => a.location)

theorem analyzeStep_keys_eq (acc : List LocAnalysis) (e : LocEntry) :
    analysisKeys (analyzeStep acc e) =
      (if (acc.find? (fun a => a.location == e.location)).isSome
       then analysisKeys acc else analysisKeys acc ++ [e.location]) := by
  unfold analyzeStep analysisKeys
  by_cases h : (acc.find? (fun a => a.location == e.location)).isSome
  · rw [if_pos h, if_pos h, List.map_map]
    apply List.map_congr_left
    intro a _
    by_cases ha : a.location = e.location
    · simp [ha]
    · simp [ha]
  · rw [if_neg h, if_neg h, List.map_append]
    rfl

theorem analyzeFold_keys_nodup :
    ∀ (entries : List LocEntry) (acc : List LocAnalysis),
      (analysisKeys acc).Nodup →
      (analysisKeys (entries.foldl analyzeStep acc)).Nodup
  | [], _, h => h
  | e :: es, acc, h => by
    rw [List.foldl_cons]
    apply analyzeFold_keys_nodup es
    rw [analyzeStep_keys_eq]
    by_cases hf : (acc.find? (fun a => a.location == e.location)).isSome
    · rw [if_pos hf]; exact h
    · rw [if_neg hf]
      have hnone : acc.find? (fun a => a.location == e.location) = none := by
        cases hv : acc.find? (fun a => a.location == e.location) with
        | none => rfl
        | some z => rw [hv] at hf; simp at hf
      have hne : e.location ∉ analysisKeys acc := by
        intro hmem
        obtain ⟨a, ha, hal⟩ := List.mem_map.mp hmem
        have := List.find?_eq_none.mp hnone a ha
        simp [hal] at this
      simp [List.nodup_append, h, hne]

theorem analyzeLocations_keys_nodup (entries : List LocEntry) :
    (analysisKeys (analyzeLocations entries)).Nodup :=
  analyzeFold_keys_nodup entries [] (by simp [analysisKeys])

/-! ### Lemmas: the processing loop -/

theorem process_item_nomatch_mono (m : MatcherState) (p : Bool) :
    ∀ (items : List BSXItem) (acc : ProcessResults × BSXState) (x : NoMatchInfo),
      x ∈ acc.1.items_without_matches →
      x ∈ (items.foldl (process_item m p) acc).1.items_without_matches
  | [], _, _, h => h
  | it :: its, acc, x, h => by
    rw [List.foldl_cons]
    apply process_item_nomatch_mono m p its
    cases hfb : find_best_location_for_item m it with
    | some loc =>
      simp only [process_item, hfb]
      split
      · split
        · exact h
        · exact h
      · exact h
    | none =>
      simp only [process_item, hfb]
      exact List.mem_append_left _ h

theorem process_fold_nomatch_mem (m : MatcherState) (p : Bool) :
    ∀ (items : List BSXItem) (acc : ProcessResults × BSXState) (it : BSXItem),
      it ∈ items → find_best_location_for_item m it = none →
      mkNoMatchInfo it ∈ (items.foldl (process_item m p) acc).1.items_without_matches
  | [], _, it, h, _ => absurd h (List.not_mem_nil it)
  | x :: xs, acc, it, h, hn => by
    rw [List.foldl_cons]
    rcases List.mem_cons.mp h with heq | hmem
    · subst heq
      apply process_item_nomatch_mono
      simp only [process_item, hn]
      exact List.mem_append_right _ (List.mem_singleton.mpr rfl)
    · exact process_fold_nomatch_mem m p xs _ it hmem hn

theorem process_item_counts (m : MatcherState) (p : Bool)
    (acc : ProcessResults × BSXState) (it : BSXItem)
    (hok : p = true ∨ it.xml_ref.isSome = true) :
    (process_item m p acc it).1.locations_assigned +
        (process_item m p acc it).1.no_location_found =
      acc.1.locations_assigned + acc.1.no_location_found + 1 ∧
    (process_item m p acc it).1.total_items_processed =
      acc.1.total_items_processed := by
  cases hfb : find_best_location_for_item m it with
  | none =>
    have e : process_item m p acc it =
        ({ acc.1 with
           no_location_found := acc.1.no_location_found + 1
           items_without_matches :=
             acc.1.items_without_matches ++ [mkNoMatchInfo it] }, acc.2) := by
      simp only [process_item, hfb]
    rw [e]
    refine ⟨?_, rfl⟩
    show acc.1.locations_assigned + (acc.1.no_location_found + 1) = _
    omega
  | some loc =>
    cases p with
    | true =>
      have e : process_item m true acc it =
          ({ acc.1 with
             locations_assigned := acc.1.locations_assigned + 1
             assignment_details :=
               acc.1.assignment_details ++ [mkAssignmentInfo it loc] }, acc.2) := by
        simp only [process_item, hfb, Bool.not_true, Bool.false_eq_true, if_false]
      rw [e]
      refine ⟨?_, rfl⟩
      show acc.1.locations_assigned + 1 + acc.1.no_location_found = _
      omega
    | false =>
      rcases hok with hok | hok
      · exact absurd hok (by simp)
      · cases href : it.xml_ref with
        | none => rw [href] at hok; simp at hok
        | some k =>
          have e : process_item m false acc it =
              ({ acc.1 with
                 locations_assigned := acc.1.locations_assigned + 1
                 assignment_details :=
                   acc.1.assignment_details ++ [mkAssignmentInfo it loc] },
               (update_item_location acc.2 it loc).2) := by
            simp only [process_item, hfb, Bool.not_false, update_item_location,
              href, if_true]
          rw [e]
          refine ⟨?_, rfl⟩
          show acc.1.locations_assigned + 1 + acc.1.no_location_found = _
          omega

theorem process_fold_counts (m : MatcherState) (p : Bool) :
    ∀ (items : List BSXItem) (acc : ProcessResults × BSXState),
      (∀ it ∈ items, p = true ∨ it.xml_ref.isSome = true) →
      (items.foldl (process_item m p) acc).1.locations_assigned +
          (items.foldl (process_item m p) acc).1.no_location_found =
        acc.1.locations_assigned + acc.1.no_location_found + items.length ∧
      (items.foldl (process_item m p) acc).1.total_items_processed =
        acc.1.total_items_processed
  | [], _, _ => ⟨by simp, rfl⟩
  | it :: its, acc, hok => by
    rw [List.foldl_cons]
    have h1 := process_item_counts m p acc it (hok it (List.mem_cons_self it its))
    have h2 := process_fold_counts m p its (process_item m p acc it)
      (fun x hx => hok x (List.mem_cons_of_mem it hx))
    refine ⟨?_, by rw [h2.2, h1.2]⟩
    rw [h2.1, h1.1, List.length_cons]
    omega

theorem process_fold_preview_apply (m : MatcherState) :
    ∀ (items : List BSXItem) (res : ProcessResults) (h1 h2 : BSXState),
      (∀ it ∈ items, it.xml_ref.isSome = true) →
      (items.foldl (process_item m false) (res, h1)).1 =
        (items.foldl (process_item m true) (res, h2)).1
  | [], _, _, _, _ => rfl
  | it :: its, res, h1, h2, hrefs => by
    rw [List.foldl_cons, List.foldl_cons]
    have hit := hrefs it (List.mem_cons_self it its)
    have hrest : ∀ x ∈ its, x.xml_ref.isSome = true :=
      fun x hx => hrefs x (List.mem_cons_of_mem it hx)
    cases href : it.xml_ref with
    | none => rw [href] at hit; simp at hit
    | some k =>
      cases hfb : find_best_location_for_item m it with
      | none =>
        have e1 : process_item m false (res, h1) it =
            ({ res with
               no_location_found := res.no_location_found + 1
               items_without_matches :=
                 res.items_without_matches ++ [mkNoMatchInfo it] }, h1) := by
          simp only [process_item, hfb]
        have e2 : process_item m true (res, h2) it =
            ({ res with
               no_location_found := res.no_location_found + 1
               items_without_matches :=
                 res.items_without_matches ++ [mkNoMatchInfo it] }, h2) := by
          simp only [process_item, hfb]
        rw [e1, e2]
        exact process_fold_preview_apply m its _ _ _ hrest
      | some loc =>
        have e1 : process_item m false (res, h1) it =
            ({ res with
               locations_assigned := res.locations_assigned + 1
               assignment_details :=
                 res.assignment_details ++ [mkAssignmentInfo it loc] },
             (update_item_location h1 it loc).2) := by
          simp only [process_item, hfb, Bool.not_false, update_item_location,
            href, if_true]
        have e2 : process_item m true (res, h2) it =
            ({ res with
               locations_assigned := res.locations_assigned + 1
               assignment_details :=
                 res.assignment_details ++ [mkAssignmentInfo it loc] }, h2) := by
          simp only [process_item, hfb, Bool.not_true, Bool.false_eq_true, if_false]
        rw [e1, e2]
        exact process_fold_preview_apply m its _ _ _ hrest

theorem roundHalfEvenDiv_close (n t : Nat) (ht : 0 < t) :
    |((roundHalfEvenDiv n t : Nat) : ℚ) - (n : ℚ) / t| ≤ 1 / 2 := by
  have htq : (0 : ℚ) < t := by exact_mod_cast ht
  have hmod : (n : ℚ) = (t : ℚ) * ((n / t : Nat) : ℚ) + ((n % t : Nat) : ℚ) := by
    exact_mod_cast (Nat.div_add_mod n t).symm
  have hdiv : (n : ℚ) / t = ((n / t : Nat) : ℚ) + ((n % t : Nat) : ℚ) / t := by
    rw [hmod, add_div, mul_comm, mul_div_assoc, div_self (ne_of_gt htq), mul_one]
  have hr_lt : ((n % t : Nat) : ℚ) < t := by exact_mod_cast Nat.mod_lt n ht
  have hr_nonneg : (0 : ℚ) ≤ ((n % t : Nat) : ℚ) := by positivity
  have hrt_nonneg : (0 : ℚ) ≤ ((n % t : Nat) : ℚ) / t := by positivity
  unfold roundHalfEvenDiv
  by_cases h1 : 2 * (n % t) < t
  · have h1q : 2 * ((n % t : Nat) : ℚ) < t := by exact_mod_cast h1
    have hle : ((n % t : Nat) : ℚ) / t ≤ 1 / 2 := by
      rw [div_le_div_iff₀ htq (by norm_num)]; linarith
    rw [if_pos h1, hdiv, abs_le]
    constructor <;> linarith
  · have h1q : (t : ℚ) ≤ 2 * ((n % t : Nat) : ℚ) := by
      exact_mod_cast Nat.le_of_not_lt h1
    have hub : ((n % t : Nat) : ℚ) / t < 1 := by
      rw [div_lt_one htq]; exact hr_lt
    have hlb : 1 / 2 ≤ ((n % t : Nat) : ℚ) / t := by
      rw [div_le_div_iff₀ (by norm_num) htq]; linarith
    rw [if_neg h1]
    by_cases h2 : t < 2 * (n % t)
    · rw [if_pos h2]
      push_cast
      rw [hdiv, abs_le]
      constructor <;> linarith
    · rw [if_neg h2]
      have h2q : 2 * ((n % t : Nat) : ℚ) ≤ (t : ℚ) := by
        exact_mod_cast Nat.le_of_not_lt h2
      have hle : ((n % t : Nat) : ℚ) / t ≤ 1 / 2 := by
        rw [div_le_div_iff₀ htq (by norm_num)]; linarith
      by_cases h3 : (n / t) % 2 = 0
      · rw [if_pos h3, hdiv, abs_le]
        constructor <;> linarith
      · rw [if_neg h3]
        push_cast
        rw [hdiv, abs_le]
        constructor <;> linarith

theorem process_item_total (m : MatcherState) (p : Bool)
    (acc : ProcessResults × BSXState) (it : BSXItem) :
    (process_item m p acc it).1.total_items_processed =
      acc.1.total_items_processed := by
  cases hfb : find_best_location_for_item m it with
  | none => simp only [process_item, hfb]
  | some loc =>
    simp only [process_item, hfb]
    split
    · split <;> rfl
    · rfl

theorem process_fold_total (m : MatcherState) (p : Bool) :
    ∀ (items : List BSXItem) (acc : ProcessResults × BSXState),
      (items.foldl (process_item m p) acc).1.total_items_processed =
        acc.1.total_items_processed
  | [], _ => rfl
  | it :: its, acc => by
    rw [List.foldl_cons, process_fold_total m p its (process_item m p acc it),
      process_item_total]

/-- Everything the claims need about a successful `process_bsx_file` run:
shape of the report, its success-rate field, candidate counts and the
recording of unmatched items. -/
theorem process_bsx_file_ok (m : MatcherState) (h : BSXState) (p : Bool)
    (hload : m.inventory_loaded = true) :
    ∃ r, (process_bsx_file m h p).1 = .ok r ∧
      r.success_rate = finalRate r.locations_assigned r.total_items_processed ∧
      r.total_items_processed = (get_items_without_locations h).length ∧
      ((∀ it ∈ get_items_without_locations h, p = true ∨ it.xml_ref.isSome = true) →
        r.locations_assigned + r.no_location_found = r.total_items_processed) ∧
      (∀ it ∈ get_items_without_locations h,
        find_best_location_for_item m it = none →
        mkNoMatchInfo it ∈ r.items_without_matches) := by
  obtain ⟨out, hout⟩ : ∃ out, List.foldl (process_item m p)
      (({ total_items_processed := (get_items_without_locations h).length
          locations_assigned := 0
          no_location_found := 0
          assignment_details := []
          items_without_matches := []
          success_rate := 0 } : ProcessResults), h)
      (get_items_without_locations h) = out := ⟨_, rfl⟩
  unfold process_bsx_file
  rw [hload]
  simp only [Bool.not_true, Bool.false_eq_true, if_false]
  rw [hout]
  refine ⟨_, rfl, rfl, ?_, ?_, ?_⟩
  · have ht := process_fold_total m p (get_items_without_locations h)
      (({ total_items_processed := (get_items_without_locations h).length
          locations_assigned := 0
          no_location_found := 0
          assignment_details := []
          items_without_matches := []
          success_rate := 0 } : ProcessResults), h)
    rw [hout] at ht
    exact ht
  · intro hok
    have hc := (process_fold_counts m p (get_items_without_locations h)
      (({ total_items_processed := (get_items_without_locations h).length
          locations_assigned := 0
          no_location_found := 0
          assignment_details := []
          items_without_matches := []
          success_rate := 0 } : ProcessResults), h) hok).1
    have ht := process_fold_total m p (get_items_without_locations h)
      (({ total_items_processed := (get_items_without_locations h).length
          locations_assigned := 0
          no_location_found := 0
          assignment_details := []
          items_without_matches := []
          success_rate := 0 } : ProcessResults), h)
    rw [hout] at hc ht
    simp only [] at hc ht
    show out.1.locations_assigned + out.1.no_location_found =
      out.1.total_items_processed
    omega
  · intro it hit hfb
    have hmem := process_fold_nomatch_mem m p (get_items_without_locations h)
      (({ total_items_processed := (get_items_without_locations h).length
          locations_assigned := 0
          no_location_found := 0
          assignment_details := []
          items_without_matches := []
          success_rate := 0 } : ProcessResults), h) it hit hfb
    rw [hout] at hmem
    show mkNoMatchInfo it ∈ out.1.items_without_matches
    exact hmem

/-- When the index was never built, `process_bsx_file` returns the typed
error value. -/
theorem process_bsx_file_error (m : MatcherState) (h : BSXState) (p : Bool)
    (hload : m.inventory_loaded = false) :
    (process_bsx_file m h p).1 =
      .error "Inventory not loaded. Call load_inventory_locations() first." := by
  unfold process_bsx_file
  rw [hload]
  rfl

/-! ### Concrete documents and matcher states used as test inputs -/

def sampleItemA : Element :=
  .mk "Item" [("extra", "1")] none none
    [ .mk "ItemID" [] (some "3001") none [],
      .mk "ColorID" [] (some "4") none [],
      .mk "Qty" [] (some "10") none [],
      .mk "Remarks" [] none none [],
      .mk "UnknownField" [("a", "b")] (some "keep me") none
        [.mk "Nested" [("deep", "yes")] (some "x") none []] ]

def sampleItemB : Element :=
  .mk "Item" [] none none
    [ .mk "ItemID" [] (some "9999") none [],
      .mk "ColorID" [] (some "1") none [] ]

def sampleDoc : Element :=
  .mk "BrickStoreXML" [] none none
    [.mk "Inventory" [] none none [sampleItemA, sampleItemB]]

def item3001 : BSXItem :=
  ⟨"3001", "P", "4", "5", "Red", "Bricks", "Brick 2 x 4", 10, "0.50", "N", "",
   some 0⟩

def item9999 : BSXItem :=
  ⟨"9999", "P", "1", "5", "White", "Bricks", "Mystery", 1, "0.10", "N", "",
   some 1⟩

def item8888 : BSXItem :=
  ⟨"8888", "P", "1", "5", "White", "Bricks", "Spare", 1, "0.10", "N", "",
   some 2⟩

/-- The index of the C2 scenario: item 3001 with usage entries
("A1", color 4, qty 10) then ("B2", color 4, qty 2). -/
def m2 : MatcherState :=
  ⟨[("3001", [⟨"A1", 10, "N", "4"⟩, ⟨"B2", 2, "N", "4"⟩])], true⟩

/-- Usage entries with a big mixed location A1 (colors 5 and 6) and a small
location B2 dedicated to the target color 4. -/
def entries6 : List LocEntry :=
  [⟨"A1", 900, "N", "5"⟩, ⟨"A1", 600, "N", "6"⟩, ⟨"B2", 1, "N", "4"⟩]

def m6 : MatcherState := ⟨[("3001", entries6)], true⟩

def r4a : ExtRecord := ⟨"3001", "4", "A1", 2, "N"⟩
def r4b : ExtRecord := ⟨"3001", "4", "A1", 3, "N"⟩

/-- An index holding only item 3001 at location A1, and a handler whose three
location-less items are 3001 (matched) and 9999, 8888 (unmatched). -/
def m8 : MatcherState := load_inventory_locations [⟨"3001", "4", "A1", 5, "N"⟩]

def h8 : BSXState := ⟨none, [item3001, item9999, item8888], none⟩

theorem parseItemsAux_getD :
    ∀ (es : List Element) (i k : Nat), k < es.length →
      (parseItemsAux i es).getD k default =
        parse_item_element (es.getD k default) (i + k)
  | [], _, k, h => by simp at h
  | e :: es, i, 0, _ => by simp [parseItemsAux]
  | e :: es, i, k + 1, h => by
    rw [parseItemsAux, List.getD_cons_succ, List.getD_cons_succ,
      parseItemsAux_getD es (i + 1) k (by simpa using h)]
    congr 1
    omega

/-! ### The claims -/

/-- C1: loading a well-formed BSX document (any element tree whose root tag
is `BrickStoreXML`, including unknown child elements and attributes inside
item nodes) and saving it with no mutations yields a structurally-equal
document: the saved tree is the loaded tree after the whitespace-only
indentation pass, and it is `structEq` (equal up to whitespace/indentation
in text and tail fields) to the original. -/
theorem C1_load_save_roundtrip (e : Element) (path : String)
    (hext : (strEndsWith (strLower path) ".bsx" ||
      strEndsWith (strLower path) ".xml") = true)
    (htag : e.tag = "BrickStoreXML") :
    ∃ st, load_bsx_file true path (some e) = .ok st ∧ st.root = some e ∧
      save_bsx_tree st = .ok (indentXml 0 e) ∧
      structEq (indentXml 0 e) e = true := by
  refine ⟨⟨some e, parseItems e, some path⟩, ?_, rfl, rfl, structEq_indentXml e 0⟩
  simp [load_bsx_file, hext, htag]

/-- C1 witness: a concrete document with an unknown attribute-bearing child
inside an item, loaded from a `.bsx` path. -/
theorem C1_witness :
    ∃ st, load_bsx_file true "inv.bsx" (some sampleDoc) = .ok st ∧
      st.root = some sampleDoc ∧
      save_bsx_tree st = .ok (indentXml 0 sampleDoc) ∧
      structEq (indentXml 0 sampleDoc) sampleDoc = true :=
  C1_load_save_roundtrip sampleDoc "inv.bsx" (by decide) (by decide)

/-- C2 counterexample: on the claimed scenario (item 3001, color 4, usage
entries ("A1", color 4, qty 10) then ("B2", color 4, qty 2)) the code does
not return "B2": rule 1 (dedicated single-color location) already applies to
the first-inserted location "A1", so rule 3 is never reached. -/
theorem C2_counterexample :
    ¬ find_best_location_for_item m2 item3001 = some "B2" := by decide

/-- C2 amended: on that scenario `find_best_location_for_item` returns
"A1" — both locations are pure and hold the target color, so rule 1 fires
and returns the first dedicated location in insertion order. -/
theorem C2_amended_assignment :
    find_best_location_for_item m2 item3001 = some "A1" := by decide

/-- C3 counterexample: the priority function uppercases the first character,
so "r12" gets priority 0, not the 2 that the claim's `'R'`-only reading
assigns to it. -/
theorem C3_counterexample :
    get_location_priority "r12" = 0 ∧ ¬ get_location_priority "r12" = 2 := by
  decide

/-- C3 amended: the priority function returns 0 when the uppercased first
character is `R`, 1 when it is `S`, and 2 otherwise; the empty string has
priority 2; moreover
`priority "R12" < priority "S3" < priority "A7" = priority ""`, and the
comparison is case-insensitive (`priority "r12" = 0`, `priority "s3" = 1`). -/
theorem C3_amended_priority (location : String) :
    (location.toList = [] → get_location_priority location = 2) ∧
    (∀ (c : Char) (rest : List Char), location.toList = c :: rest →
      get_location_priority location =
        (if c.toUpper = 'R' then 0 else if c.toUpper = 'S' then 1 else 2)) ∧
    get_location_priority "R12" < get_location_priority "S3" ∧
    get_location_priority "S3" < get_location_priority "A7" ∧
    get_location_priority "A7" = get_location_priority "" ∧
    get_location_priority "r12" = 0 ∧ get_location_priority "s3" = 1 := by
  refine ⟨?_, ?_, by decide, by decide, by decide, by decide, by decide⟩
  · intro hnil
    unfold get_location_priority
    rw [hnil]
  · intro c rest hcons
    unfold get_location_priority
    rw [hcons]

/-- C3 witness: the amended description applied to the lowercase input
"r12". -/
theorem C3_witness :
    "r12".toList = 'r' :: ['1', '2'] ∧ get_location_priority "r12" = 0 := by
  refine ⟨by decide, ?_⟩
  rw [(C3_amended_priority "r12").2.1 'r' ['1', '2'] (by decide)]
  decide

/-- C4 counterexample: two records with the identical
(item, location, color, condition) combination (quantities 2 and 3) yield
two separate index entries, not a single entry with the summed quantity 5. -/
theorem C4_counterexample :
    r4a.item_no = r4b.item_no ∧ pyStrip r4a.remarks = pyStrip r4b.remarks ∧
    r4a.color_id = r4b.color_id ∧ r4a.condition = r4b.condition ∧
    (entriesFor (load_inventory_locations [r4a, r4b]) "3001").length = 2 ∧
    ¬ entriesFor (load_inventory_locations [r4a, r4b]) "3001" =
        [⟨"A1", 5, "N", "4"⟩] := by decide

/-- C4 amended: building the index groups records with non-empty (stripped)
location text by item id, records with an empty id or empty location
contribute nothing, and each contributing record appends its own
`LocationUsageEntry` in feed order — duplicates of the same
(item, location, color, condition) combination stay separate entries with
their own quantities; no summing occurs. -/
theorem C4_amended_index (records : List ExtRecord) (item_id : String) :
    (load_inventory_locations records).inventory_loaded = true ∧
    entriesFor (load_inventory_locations records) item_id =
      records.filterMap (fun r => recordEntry r item_id) := by
  refine ⟨rfl, ?_⟩
  rw [entriesFor_eq_lookup]
  show lookupEntries (records.foldl addInvRecord []) item_id = _
  rw [lookup_fold_addInvRecord]
  simp [lookupEntries]

/-- C5: after `update_item_location` on exactly one record of a loaded
document and saving, the re-loaded output differs from the original only in
that record's `Remarks` field: the re-load equals the mutated tree up to
whitespace, the mutated tree's item list is the original's with only the
`k`-th item replaced by its `setRemarks` image, and `setRemarks` preserves
the tag, attributes, text, tail and all non-`Remarks` children of an
element while setting the `Remarks` text to the new location. -/
theorem C5_single_mutation_isolation (e : Element) (path : String) (k : Nat)
    (loc : String)
    (hext : (strEndsWith (strLower path) ".bsx" ||
      strEndsWith (strLower path) ".xml") = true)
    (htag : e.tag = "BrickStoreXML")
    (hflat : flatItems e = true)
    (hk : k < (bsxItems e).length) :
    ∃ st st2, load_bsx_file true path (some e) = .ok st ∧
      update_item_location st (st.items.getD k default) loc = (true, st2) ∧
      st2.root = some (update_root k loc e) ∧
      save_bsx_tree st2 = .ok (indentXml 0 (update_root k loc e)) ∧
      structEq (indentXml 0 (update_root k loc e)) (update_root k loc e) = true ∧
      bsxItems (update_root k loc e) =
        (bsxItems e).set k (setRemarks loc ((bsxItems e).getD k default)) ∧
      (∀ y : Element,
        (setRemarks loc y).tag = y.tag ∧
        (setRemarks loc y).attrib = y.attrib ∧
        (setRemarks loc y).text = y.text ∧
        (setRemarks loc y).tail = y.tail ∧
        nonRemarksChildren (setRemarks loc y) = nonRemarksChildren y) ∧
      remarksText (setRemarks loc ((bsxItems e).getD k default)) = some loc := by
  have href : ((parseItems e).getD k default).xml_ref = some k := by
    unfold parseItems
    rw [parseItemsAux_getD (bsxItems e) 0 k hk]
    show some (0 + k) = some k
    rw [Nat.zero_add]
  refine ⟨⟨some e, parseItems e, some path⟩,
    ⟨Option.map (update_root k loc) (some e),
     (parseItems e).map (fun it =>
       if it.xml_ref == some k then { it with remarks := loc } else it),
     some path⟩,
    ?_, ?_, rfl, rfl, structEq_indentXml _ 0, ?_, ?_, ?_⟩
  · simp [load_bsx_file, hext, htag]
  · show update_item_location _ ((parseItems e).getD k default) loc = (true, _)
    simp only [update_item_location, href]
  · rw [bsxItems_update_root loc e k hflat, if_pos hk]
  · intro y
    exact ⟨setRemarks_tag loc y, setRemarks_attrib loc y, setRemarks_text loc y,
      setRemarks_tail loc y, nonRemarksChildren_setRemarks loc y⟩
  · exact remarksText_setRemarks loc _

/-- C5 witness: the concrete two-item document, updating item 1's location
to "B2". -/
theorem C5_witness :
    ∃ st st2, load_bsx_file true "inv.bsx" (some sampleDoc) = .ok st ∧
      update_item_location st (st.items.getD 1 default) "B2" = (true, st2) ∧
      st2.root = some (update_root 1 "B2" sampleDoc) ∧
      save_bsx_tree st2 = .ok (indentXml 0 (update_root 1 "B2" sampleDoc)) ∧
      structEq (indentXml 0 (update_root 1 "B2" sampleDoc))
        (update_root 1 "B2" sampleDoc) = true ∧
      bsxItems (update_root 1 "B2" sampleDoc) =
        (bsxItems sampleDoc).set 1
          (setRemarks "B2" ((bsxItems sampleDoc).getD 1 default)) ∧
      (∀ y : Element,
        (setRemarks "B2" y).tag = y.tag ∧
        (setRemarks "B2" y).attrib = y.attrib ∧
        (setRemarks "B2" y).text = y.text ∧
        (setRemarks "B2" y).tail = y.tail ∧
        nonRemarksChildren (setRemarks "B2" y) = nonRemarksChildren y) ∧
      remarksText (setRemarks "B2" ((bsxItems sampleDoc).getD 1 default)) =
        some "B2" :=
  C5_single_mutation_isolation sampleDoc "inv.bsx" 1 "B2" (by decide)
    (by decide) (by decide) (by decide)

/-- C6: whenever some location's usage entries are all of the target color
(rule 1 applies), `find_best_location_for_item` returns a location whose
analysis holds exactly the target color — a dedicated location, never a
mixed one — regardless of the quantities anywhere else, because rule 1 is
checked before every other rule. -/
theorem C6_rule1_precedence (m : MatcherState) (it : BSXItem) (key : String)
    (entries : List LocEntry)
    (hload : m.inventory_loaded = true)
    (hfind : m.inventory_locations.find? (fun p => p.1 == it.item_id) =
      some (key, entries))
    (hded : ∃ a ∈ analyzeLocations entries, a.colors = [it.color_id]) :
    ∃ a ∈ analyzeLocations entries,
      find_best_location_for_item m it = some a.location ∧
      a.colors = [it.color_id] ∧
      ∀ b ∈ analyzeLocations entries, b.location = a.location →
        b.colors = [it.color_id] := by
  obtain ⟨a0, ha0, hc0⟩ := hded
  have hne : ¬ entries.isEmpty = true := by
    intro hemp
    have hnil : entries = [] := by
      cases entries with
      | nil => rfl
      | cons x xs => simp at hemp
    rw [hnil] at ha0
    simp [analyzeLocations] at ha0
  have hp0 : ((a0.colors.length == 1) && a0.colors.contains it.color_id) = true := by
    rw [hc0]; simp
  obtain ⟨b, hfb⟩ : ∃ b, (analyzeLocations entries).find?
      (fun a => (a.colors.length == 1) && a.colors.contains it.color_id) =
        some b := by
    cases hv : (analyzeLocations entries).find?
        (fun a => (a.colors.length == 1) && a.colors.contains it.color_id) with
    | some b => exact ⟨b, rfl⟩
    | none => exact absurd hp0 (List.find?_eq_none.mp hv a0 ha0)
  have hbmem : b ∈ analyzeLocations entries := List.mem_of_find?_eq_some hfb
  have hbp := List.find?_some hfb
  have hbcol : b.colors = [it.color_id] := by
    obtain ⟨hlen, hcont⟩ := Bool.and_eq_true_iff.mp hbp
    obtain ⟨x, hx⟩ := List.length_eq_one.mp (by simpa using hlen)
    have hmem : it.color_id ∈ b.colors := by simpa using hcont
    rw [hx] at hmem ⊢
    simp at hmem
    rw [hmem]
  refine ⟨b, hbmem, ?_, hbcol, ?_⟩
  · unfold find_best_location_for_item
    rw [hload]
    simp only [Bool.not_true, Bool.false_eq_true, if_false]
    rw [hfind]
    show (if entries.isEmpty = true then _ else _) = _
    rw [if_neg hne]
    rw [hfb]
  · intro b2 hb2 heq
    have hnd := analyzeLocations_keys_nodup entries
    have hb2b : b2 = b := List.inj_on_of_nodup_map hnd hb2 hbmem heq
    rw [hb2b, hbcol]

/-- C6 witness: a small location dedicated to the target color is chosen
over a mixed location holding far more stock. -/
theorem C6_witness :
    ∃ a ∈ analyzeLocations entries6,
      find_best_location_for_item m6 item3001 = some a.location ∧
      a.colors = [item3001.color_id] ∧
      ∀ b ∈ analyzeLocations entries6, b.location = a.location →
        b.colors = [item3001.color_id] :=
  C6_rule1_precedence m6 item3001 "3001" entries6 rfl (by decide) (by decide)

/-- C7: `process_bsx_file` returns its typed error value exactly when the
inventory index has not been built; otherwise it returns a report, and every
candidate item for which the assigner finds no location is recorded in the
report's unmatched list — a no-match is a recorded outcome, not an error. -/
theorem C7_error_iff_and_unmatched (m : MatcherState) (h : BSXState) (p : Bool) :
    ((∃ msg, (process_bsx_file m h p).1 = .error msg) ↔
      m.inventory_loaded = false) ∧
    (m.inventory_loaded = true →
      ∃ r, (process_bsx_file m h p).1 = .ok r ∧
        ∀ it ∈ get_items_without_locations h,
          find_best_location_for_item m it = none →
          mkNoMatchInfo it ∈ r.items_without_matches) := by
  cases hl : m.inventory_loaded with
  | false =>
    refine ⟨⟨fun _ => rfl, fun _ => ⟨_, process_bsx_file_error m h p hl⟩⟩, ?_⟩
    intro hc
    exact absurd hc (by simp)
  | true =>
    obtain ⟨r, hr, -, -, -, hnm⟩ := process_bsx_file_ok m h p hl
    refine ⟨⟨?_, ?_⟩, fun _ => ⟨r, hr, hnm⟩⟩
    · intro hmsg
      obtain ⟨msg, hmsg⟩ := hmsg
      rw [hr] at hmsg
      exact absurd hmsg (by simp)
    · intro hc
      exact absurd hc (by simp)

/-- C7 witness: with a built index, item 9999 (absent from the index) is
recorded as unmatched in a successfully returned report. -/
theorem C7_witness :
    ∃ r, (process_bsx_file m8 h8 true).1 = .ok r ∧
      mkNoMatchInfo item9999 ∈ r.items_without_matches := by
  obtain ⟨-, h2⟩ := C7_error_iff_and_unmatched m8 h8 true
  obtain ⟨r, hr, hnm⟩ := h2 rfl
  exact ⟨r, hr, hnm item9999 (by decide) (by decide)⟩

/-- C8 counterexample: with three candidates and one assignment the report's
success rate is 33.3 (the float `round(x, 1)` of 100/3), which is not equal
to `assigned / (assigned + unmatched) * 100 = 100/3`. -/
theorem C8_counterexample :
    ∃ r, (process_bsx_file m8 h8 true).1 = .ok r ∧
      r.locations_assigned = 1 ∧ r.no_location_found = 2 ∧
      r.total_items_processed = 3 ∧
      ¬ r.success_rate = (r.locations_assigned : ℚ) /
          ((r.locations_assigned : ℚ) + (r.no_location_found : ℚ)) * 100 := by
  refine ⟨_, rfl, by decide, by decide, by decide, ?_⟩
  show ¬ finalRate 1 3 = ((1 : Nat) : ℚ) / (((1 : Nat) : ℚ) + ((2 : Nat) : ℚ)) * 100
  unfold finalRate
  rw [if_pos (by norm_num)]
  have hr : roundHalfEvenDiv (1 * 1000) 3 = 333 := by decide
  rw [hr]
  push_cast
  norm_num

/-- C8 amended: in every report, assigned + unmatched equals the candidate
count (provided, as for any loaded document, every matched candidate has a
preserved node — always true in preview mode), the success rate is 0 when
there are zero candidates, and otherwise it is the exact value
`assigned / (assigned + unmatched) * 100` rounded to one decimal digit:
a rational `n/10` within 1/20 of that value. -/
theorem C8_amended_success_rate (m : MatcherState) (h : BSXState)
    (preview_only : Bool) (hload : m.inventory_loaded = true)
    (hok : ∀ it ∈ get_items_without_locations h,
      preview_only = true ∨ it.xml_ref.isSome = true) :
    ∃ r, (process_bsx_file m h preview_only).1 = .ok r ∧
      r.locations_assigned + r.no_location_found = r.total_items_processed ∧
      (r.total_items_processed = 0 → r.success_rate = 0) ∧
      (0 < r.total_items_processed →
        ∃ n : ℤ, r.success_rate = (n : ℚ) / 10 ∧
          |(n : ℚ) / 10 - (r.locations_assigned : ℚ) /
            ((r.locations_assigned : ℚ) + (r.no_location_found : ℚ)) * 100| ≤
            1 / 20) := by
  obtain ⟨r, hr, hsr, htot, hcnt, -⟩ := process_bsx_file_ok m h preview_only hload
  have hc := hcnt hok
  refine ⟨r, hr, hc, ?_, ?_⟩
  · intro h0
    rw [hsr, h0]
    unfold finalRate
    rw [if_neg (by omega)]
  · intro hpos
    refine ⟨((roundHalfEvenDiv (r.locations_assigned * 1000)
      r.total_items_processed : Nat) : ℤ), ?_, ?_⟩
    · rw [hsr]
      unfold finalRate
      rw [if_pos hpos]
      push_cast
      ring
    · have hclose := roundHalfEvenDiv_close (r.locations_assigned * 1000)
        r.total_items_processed hpos
      have htq : (0 : ℚ) < (r.total_items_processed : ℚ) := by exact_mod_cast hpos
      have hsum : (r.locations_assigned : ℚ) + (r.no_location_found : ℚ) =
          (r.total_items_processed : ℚ) := by exact_mod_cast hc
      have hform : (r.locations_assigned : ℚ) /
          ((r.locations_assigned : ℚ) + (r.no_location_found : ℚ)) * 100 =
          ((r.locations_assigned * 1000 : Nat) : ℚ) /
            (r.total_items_processed : ℚ) / 10 := by
        rw [hsum]
        push_cast
        field_simp
        ring
      rw [hform]
      have hsplit : ((roundHalfEvenDiv (r.locations_assigned * 1000)
            r.total_items_processed : Nat) : ℤ) / 10 -
            ((r.locations_assigned * 1000 : Nat) : ℚ) /
              (r.total_items_processed : ℚ) / 10 =
          (((roundHalfEvenDiv (r.locations_assigned * 1000)
            r.total_items_processed : Nat) : ℚ) -
            ((r.locations_assigned * 1000 : Nat) : ℚ) /
              (r.total_items_processed : ℚ)) / 10 := by
        push_cast
        ring
      rw [hsplit, abs_div]
      rw [abs_of_pos (show (0 : ℚ) < 10 by norm_num)]
      linarith [hclose]

/-- C8 witness: the amended statement applied to the concrete one-of-three
scenario in preview mode. -/
theorem C8_witness :
    ∃ r, (process_bsx_file m8 h8 true).1 = .ok r ∧
      r.locations_assigned + r.no_location_found = r.total_items_processed ∧
      (r.total_items_processed = 0 → r.success_rate = 0) ∧
      (0 < r.total_items_processed →
        ∃ n : ℤ, r.success_rate = (n : ℚ) / 10 ∧
          |(n : ℚ) / 10 - (r.locations_assigned : ℚ) /
            ((r.locations_assigned : ℚ) + (r.no_location_found : ℚ)) * 100| ≤
            1 / 20) :=
  C8_amended_success_rate m8 h8 true rfl (fun _ _ => Or.inl rfl)

/-- C9: with a built index, running `process_bsx_file` in apply mode on a
document all of whose candidates have preserved nodes (true of every loaded
document) produces exactly the report of preview mode on the same initial
document: entries, counts and success rate are identical; only the handler
state differs. -/
theorem C9_preview_apply_report_eq (m : MatcherState) (h : BSXState)
    (hrefs : ∀ it ∈ get_items_without_locations h, it.xml_ref.isSome = true) :
    (process_bsx_file m h false).1 = (process_bsx_file m h true).1 := by
  cases hl : m.inventory_loaded with
  | false =>
    rw [process_bsx_file_error m h false hl, process_bsx_file_error m h true hl]
  | true =>
    unfold process_bsx_file
    rw [hl]
    simp only [Bool.not_true, Bool.false_eq_true, if_false]
    rw [process_fold_preview_apply m (get_items_without_locations h)
      ({ total_items_processed := (get_items_without_locations h).length
         locations_assigned := 0
         no_location_found := 0
         assignment_details := []
         items_without_matches := []
         success_rate := 0 }) h h hrefs]

/-- C9 witness: preview and apply agree on the concrete three-item run. -/
theorem C9_witness :
    (process_bsx_file m8 h8 false).1 = (process_bsx_file m8 h8 true).1 :=
  C9_preview_apply_report_eq m8 h8 (by decide)

/-- C10: `load_bsx_file` rejects, with a failure result and without looking
at any parsed content, every call where the file does not exist and every
path that does not end in ".bsx" or ".xml" case-insensitively — the result
is an error and is independent of the parsed document, even a valid one. -/
theorem C10_load_rejects (file_exists : Bool) (path : String)
    (parsed parsed2 : Option Element)
    (hbad : file_exists = false ∨
      (strEndsWith (strLower path) ".bsx" ||
        strEndsWith (strLower path) ".xml") = false) :
    (∃ msg, load_bsx_file file_exists path parsed = .error msg) ∧
    load_bsx_file file_exists path parsed =
      load_bsx_file file_exists path parsed2 := by
  rcases hbad with hf | hx
  · subst hf
    exact ⟨⟨"File not found: " ++ path, rfl⟩, rfl⟩
  · cases file_exists with
    | false => exact ⟨⟨"File not found: " ++ path, rfl⟩, rfl⟩
    | true =>
      unfold load_bsx_file
      rw [hx]
      exact ⟨⟨"File must be a BSX or XML file", rfl⟩, rfl⟩

/-- C10 witness: a byte-for-byte valid document under a ".txt" path fails to
load, with the same error as when parsing would have failed. -/
theorem C10_witness :
    (∃ msg, load_bsx_file true "inventory.txt" (some sampleDoc) = .error msg) ∧
    load_bsx_file true "inventory.txt" (some sampleDoc) =
      load_bsx_file true "inventory.txt" none :=
  C10_load_rejects true "inventory.txt" (some sampleDoc) none (Or.inr (by decide))
